import Mathlib

/-!
Verification of the manifold-scraper import script (`scraper/main.py`).

The development shallowly embeds the script: the filesystem is an inductive
tree, the SQLAlchemy session is either a real store (a record of row lists)
or the stateless `MockSession` used by `--dry-run`, and the traversal
functions mirror the nested loops of `insert_folders`, the recursion of
`insert_model_files`, and the lookup-or-create helpers.  Fallible Python
operations (iterating a non-directory, unpacking `rsplit`, `relative_to`)
become `Except`-valued functions carrying the store state reached at the
point of failure, since every insert in the script is committed immediately.
-/

namespace Scraper

/-! ## Path-name parsing (`get_infos`, line 227-230 of `scraper/main.py`) -/

/-- Embedding of Python `s.rsplit(sep, 1)` restricted to the way `get_infos`
uses it: `some (before, after)` splits `s` at the **last** occurrence of
`sep`; `none` when `sep` does not occur, in which case the two-variable
unpacking in the script raises `ValueError`. -/
def rsplitLast (sep : Char) : List Char → Option (List Char × List Char)
  | [] => none
  | c :: cs =>
    match rsplitLast sep cs with
    | some (l, r) => some (c :: l, r)
    | none => if c = sep then some ([], cs) else none

/-- Embedding of `path.parts[-3:]` followed by three-variable unpacking:
`some` of the last three components when there are at least three,
`none` (Python `ValueError`) otherwise. -/
def last3 (parts : List String) : Option (String × String × String) :=
  match parts.reverse with
  | m :: col :: c :: _ => some (c, col, m)
  | _ => none

/-- Embedding of `get_infos` (line 227-230): take the last three path parts
as `(creator, collection, modelDirName)`, then split the directory name at
the last `'-'` into the semantic model name and the variant/UUID token. -/
def get_infos (parts : List String) : Option (String × String × String × String) :=
  match last3 parts with
  | none => none
  | some (creator, collection, m) =>
    match rsplitLast '-' m.data with
    | none => none
    | some (l, r) => some (creator, collection, String.mk l, String.mk r)

theorem rsplitLast_eq_none_of_not_mem {sep : Char} :
    ∀ {cs : List Char}, sep ∉ cs → rsplitLast sep cs = none := by
  intro cs h
  induction cs with
  | nil => rfl
  | cons c cs ih =>
    have hc : c ≠ sep := fun he => h (he ▸ List.mem_cons_self c cs)
    have hcs : sep ∉ cs := fun hm => h (List.mem_cons_of_mem _ hm)
    simp [rsplitLast, ih hcs, hc]

theorem rsplitLast_append_last {sep : Char} {r : List Char} (hr : sep ∉ r) :
    ∀ l : List Char, rsplitLast sep (l ++ sep :: r) = some (l, r) := by
  intro l
  induction l with
  | nil => simp [rsplitLast, rsplitLast_eq_none_of_not_mem hr]
  | cons c l ih => simp [rsplitLast, ih]

theorem last3_append (xs : List String) (a b c : String) :
    last3 (xs ++ [a, b, c]) = some (a, b, c) := by
  simp [last3]

/-! ## Paths

Python `pathlib` paths are embedded as a flag telling whether the path is
anchored (absolute) together with its name segments; `Path.parts` prepends
the `"/"` anchor of an absolute path. -/

structure PyPath where
  anchored : Bool
  segs : List String
deriving DecidableEq

/-- `Path.parts`: the anchor of an absolute path is its first part. -/
def pathParts (p : PyPath) : List String :=
  (if p.anchored then ["/"] else []) ++ p.segs

/-- Embedding of `sanitize_path` (line 165-166): `path.relative_to(root_folder)`.
Python raises `ValueError` (here `none`) unless `root` is a prefix of `path`;
the result is always a relative path. -/
def sanitize_path (root p : PyPath) : Option PyPath :=
  if root.anchored = p.anchored ∧ root.segs.isPrefixOf p.segs then
    some ⟨false, p.segs.drop root.segs.length⟩
  else none

theorem sanitize_path_append (root : PyPath) (xs : List String) :
    sanitize_path root ⟨root.anchored, root.segs ++ xs⟩ = some ⟨false, xs⟩ := by
  simp [sanitize_path, List.isPrefixOf_iff_prefix]

/-! ## Database rows and the session

Rows keep the columns the script writes (timestamps are omitted: the script
stamps every row with `datetime.now()` and no property here depends on it).
`id` is `Option Nat`: a real store assigns an id on insert, the dry-run
`MockSession` never populates it (the Python attribute stays `None`). -/

structure CreatorRow where
  id : Option Nat
  name : String
deriving DecidableEq

structure CollectionRow where
  id : Option Nat
  name : String
  collection_id : Option Nat
deriving DecidableEq

structure ModelRow where
  id : Option Nat
  name : String
  path : PyPath
  library_id : Nat
  creator_id : Option Nat
  collection_id : Option Nat
deriving DecidableEq

structure ModelFileRow where
  id : Option Nat
  filename : String
  model_id : Option Nat
  presupported : Bool
  y_up : Bool
  digest : String
  notes : String
  caption : String
  size : Nat
  presupported_version_id : Option Nat
deriving DecidableEq

/-- A real relational store: the four tables, in insertion order. -/
structure Store where
  creators : List CreatorRow
  collections : List CollectionRow
  models : List ModelRow
  model_files : List ModelFileRow
deriving DecidableEq

def emptyStore : Store := ⟨[], [], [], []⟩

/-- The session handed through the call chain: either a real SQLAlchemy
session bound to a store, or the `MockSession` of `--dry-run` (line 17-33),
which logs writes, keeps no state, and answers every query with `None`. -/
inductive Sess where
  | real (s : Store)
  | mock
deriving DecidableEq

/-- `session.query(Creator).filter_by(name=name).first()`:
`MockSession.first` returns `None` always; a real session returns the first
matching row. -/
def queryCreatorFirst (sess : Sess) (name : String) : Option CreatorRow :=
  match sess with
  | .real s => s.creators.find? (fun r => r.name = name)
  | .mock => none

/-- `session.query(Collection).filter_by(name=name, collection_id=cid).first()`. -/
def queryCollectionFirst (sess : Sess) (name : String) (cid : Option Nat) :
    Option CollectionRow :=
  match sess with
  | .real s => s.collections.find? (fun r => r.name = name ∧ r.collection_id = cid)
  | .mock => none

/-- `session.add(creator); session.commit()` for a fresh `Creator(name=...)`:
a real store assigns the next sequence id and appends; the mock session only
logs, so the row keeps `id = None` and no state changes. -/
def addCreator (sess : Sess) (name : String) : CreatorRow × Sess :=
  match sess with
  | .real s =>
    let row : CreatorRow := ⟨some (s.creators.length + 1), name⟩
    (row, .real { s with creators := s.creators ++ [row] })
  | .mock => (⟨none, name⟩, .mock)

def addCollection (sess : Sess) (name : String) (cid : Option Nat) :
    CollectionRow × Sess :=
  match sess with
  | .real s =>
    let row : CollectionRow := ⟨some (s.collections.length + 1), name, cid⟩
    (row, .real { s with collections := s.collections ++ [row] })
  | .mock => (⟨none, name, cid⟩, .mock)

def addModel (sess : Sess) (name : String) (path : PyPath) (library_id : Nat)
    (creator_id collection_id : Option Nat) : ModelRow × Sess :=
  match sess with
  | .real s =>
    let row : ModelRow :=
      ⟨some (s.models.length + 1), name, path, library_id, creator_id, collection_id⟩
    (row, .real { s with models := s.models ++ [row] })
  | .mock => (⟨none, name, path, library_id, creator_id, collection_id⟩, .mock)

/-- Embedding of `get_or_create_creator` (line 234-246): query by exact name;
return the hit, else construct, `add`, `commit` and return the new row. -/
def get_or_create_creator (sess : Sess) (name : String) : CreatorRow × Sess :=
  match queryCreatorFirst sess name with
  | some c => (c, sess)
  | none => addCreator sess name

/-- Embedding of `get_or_create_collection` (line 250-267). -/
def get_or_create_collection (sess : Sess) (name : String) (cid : Option Nat) :
    CollectionRow × Sess :=
  match queryCollectionFirst sess name cid with
  | some c => (c, sess)
  | none => addCollection sess name cid

theorem find?_append_of_none {α : Type} {p : α → Bool} {l₁ : List α}
    (h : l₁.find? p = none) (l₂ : List α) :
    (l₁ ++ l₂).find? p = l₂.find? p := by
  induction l₁ with
  | nil => rfl
  | cons a l ih =>
    by_cases hp : p a
    · simp [List.find?_cons_of_pos _ hp] at h
    · simp only [List.find?_cons_of_neg _ hp] at h
      simpa [List.find?_cons_of_neg _ hp] using ih h

/-- C2: whenever the model directory name contains a separator `'-'`
(witnessed by the decomposition `m = l ++ '-' :: r` with no `'-'` in `r`,
which singles out the last occurrence), `get_infos` returns the portion
before that last separator as the semantic model name and the portion after
it as the variant token; in particular it parses `"Name-UUID"` into
`"Name"` and `"UUID"`. -/
theorem get_infos_splits_at_last_separator
    (parts : List String) (c col m : String) (l r : List Char)
    (h3 : last3 parts = some (c, col, m))
    (hm : m.data = l ++ '-' :: r) (hr : '-' ∉ r) :
    get_infos parts = some (c, col, String.mk l, String.mk r) := by
  simp [get_infos, h3, hm, rsplitLast_append_last hr]

theorem get_infos_splits_at_last_separator_witness :
    last3 ["CreatorA", "CollectionB", "Name-UUID"] =
      some ("CreatorA", "CollectionB", "Name-UUID")
    ∧ ("Name-UUID" : String).data = "Name".data ++ '-' :: "UUID".data
    ∧ '-' ∉ "UUID".data
    ∧ get_infos ["CreatorA", "CollectionB", "Name-UUID"] =
      some ("CreatorA", "CollectionB", "Name", "UUID") := by
  refine ⟨by decide, by decide, by decide, ?_⟩
  have h := get_infos_splits_at_last_separator
    ["CreatorA", "CollectionB", "Name-UUID"] "CreatorA" "CollectionB" "Name-UUID"
    "Name".data "UUID".data (by decide) (by decide) (by decide)
  simpa using h

/-- C4: against a real store, calling `get_or_create_creator` twice with the
same name returns the same creator row on the second call, performs no write
(the session state is unchanged), and the second call's query finds the
existing row. -/
theorem get_or_create_creator_idempotent (s : Store) (name : String) :
    queryCreatorFirst (get_or_create_creator (.real s) name).2 name =
      some (get_or_create_creator (.real s) name).1
    ∧ (get_or_create_creator (get_or_create_creator (.real s) name).2 name).1 =
      (get_or_create_creator (.real s) name).1
    ∧ (get_or_create_creator (get_or_create_creator (.real s) name).2 name).2 =
      (get_or_create_creator (.real s) name).2 := by
  have key : queryCreatorFirst (get_or_create_creator (.real s) name).2 name =
      some (get_or_create_creator (.real s) name).1 := by
    unfold get_or_create_creator
    cases hfind : queryCreatorFirst (.real s) name with
    | some c => simpa [queryCreatorFirst] using hfind
    | none =>
      simp only [queryCreatorFirst] at hfind
      simp [addCreator, queryCreatorFirst, find?_append_of_none hfind]
  refine ⟨key, ?_, ?_⟩ <;>
    · conv_lhs => rw [get_or_create_creator, key]

/-- C6: in dry-run mode the `MockSession` stand-in answers every query with
no match, so both the creator- and collection-resolver always take the
create branch; in particular two successive calls with the same name both
report "not found" and both construct a fresh (unpersisted) row. -/
theorem mock_session_never_finds (name cname : String) (cid : Option Nat) :
    queryCreatorFirst .mock name = none
    ∧ queryCollectionFirst .mock cname cid = none
    ∧ get_or_create_creator .mock name = addCreator .mock name
    ∧ (get_or_create_creator .mock name).2 = .mock
    ∧ queryCreatorFirst (get_or_create_creator .mock name).2 name = none
    ∧ get_or_create_creator (get_or_create_creator .mock name).2 name =
        addCreator .mock name
    ∧ get_or_create_collection .mock cname cid = addCollection .mock cname cid :=
  ⟨rfl, rfl, rfl, rfl, rfl, rfl, rfl⟩

/-! ## Digest computation (`calculate_digest`, line 193-195)

The script computes `hashlib.sha512(file.read_bytes()).hexdigest()`.
`hashlib.sha512` is the standard-library SHA-512 of FIPS 180-4, embedded
here directly: 64-bit words are `Nat` reduced modulo `2 ^ 64`, a file's
content is its byte list. -/

/-- Reduction of a `Nat` to a 64-bit machine word. -/
def w64 (x : Nat) : Nat := x % 2 ^ 64

/-- Right rotation of a 64-bit word by `n` bits. -/
def rotr (n x : Nat) : Nat := w64 ((x >>> n) ||| (x <<< (64 - n)))

def bigSigma0 (x : Nat) : Nat := rotr 28 x ^^^ rotr 34 x ^^^ rotr 39 x
def bigSigma1 (x : Nat) : Nat := rotr 14 x ^^^ rotr 18 x ^^^ rotr 41 x
def smallSigma0 (x : Nat) : Nat := rotr 1 x ^^^ rotr 8 x ^^^ (x >>> 7)
def smallSigma1 (x : Nat) : Nat := rotr 19 x ^^^ rotr 61 x ^^^ (x >>> 6)
def chF (x y z : Nat) : Nat := (x &&& y) ^^^ ((x ^^^ (2 ^ 64 - 1)) &&& z)
def majF (x y z : Nat) : Nat := (x &&& y) ^^^ (x &&& z) ^^^ (y &&& z)

/-- SHA-512 round constants (FIPS 180-4, section 4.2.3), written in
decimal: the low 64 bits of the fractional parts of the cube roots of the
first eighty primes. -/
def K512 : List Nat :=
  [4794697086780616226, 8158064640168781261, 13096744586834688815,
   16840607885511220156, 4131703408338449720, 6480981068601479193,
   10538285296894168987, 12329834152419229976, 15566598209576043074,
   1334009975649890238, 2608012711638119052, 6128411473006802146,
   8268148722764581231, 9286055187155687089, 11230858885718282805,
   13951009754708518548, 16472876342353939154, 17275323862435702243,
   1135362057144423861, 2597628984639134821, 3308224258029322869,
   5365058923640841347, 6679025012923562964, 8573033837759648693,
   10970295158949994411, 12119686244451234320, 12683024718118986047,
   13788192230050041572, 14330467153632333762, 15395433587784984357,
   489312712824947311, 1452737877330783856, 2861767655752347644,
   3322285676063803686, 5560940570517711597, 5996557281743188959,
   7280758554555802590, 8532644243296465576, 9350256976987008742,
   10552545826968843579, 11727347734174303076, 12113106623233404929,
   14000437183269869457, 14369950271660146224, 15101387698204529176,
   15463397548674623760, 17586052441742319658, 1182934255886127544,
   1847814050463011016, 2177327727835720531, 2830643537854262169,
   3796741975233480872, 4115178125766777443, 5681478168544905931,
   6601373596472566643, 7507060721942968483, 8399075790359081724,
   8693463985226723168, 9568029438360202098, 10144078919501101548,
   10430055236837252648, 11840083180663258601, 13761210420658862357,
   14299343276471374635, 14566680578165727644, 15097957966210449927,
   16922976911328602910, 17689382322260857208, 500013540394364858,
   748580250866718886, 1242879168328830382, 1977374033974150939,
   2944078676154940804, 3659926193048069267, 4368137639120453308,
   4836135668995329356, 5532061633213252278, 6448918945643986474,
   6902733635092675308, 7801388544844847127]

/-- The eight 64-bit chaining words of the SHA-512 state. -/
structure Hash8 where
  a : Nat
  b : Nat
  c : Nat
  d : Nat
  e : Nat
  f : Nat
  g : Nat
  h : Nat
deriving DecidableEq

/-- SHA-512 initial hash value (FIPS 180-4, section 5.3.5), in decimal. -/
def sha512IV : Hash8 :=
  ⟨7640891576956012808, 13503953896175478587, 4354685564936845355,
   11912009170470909681, 5840696475078001361, 11170449401992604703,
   2270897969802886507, 6620516959819538809⟩

/-- Big-endian byte rendering of `v` on `k` bytes. -/
def beBytes : Nat → Nat → List Nat
  | 0, _ => []
  | k + 1, v => (v >>> (8 * k)) % 256 :: beBytes k v

/-- SHA-512 message padding: `0x80`, zeros, then the 128-bit big-endian
bit length, to a multiple of 128 bytes. -/
def sha512Pad (msg : List Nat) : List Nat :=
  msg ++ [0x80] ++ List.replicate ((128 - ((msg.length + 17) % 128)) % 128) 0 ++
    beBytes 16 (8 * msg.length)

/-- Grouping of a block's bytes into big-endian 64-bit words. -/
def toWords : List Nat → List Nat
  | b0 :: b1 :: b2 :: b3 :: b4 :: b5 :: b6 :: b7 :: rest =>
    (b0 <<< 56 ||| b1 <<< 48 ||| b2 <<< 40 ||| b3 <<< 32 |||
     b4 <<< 24 ||| b5 <<< 16 ||| b6 <<< 8 ||| b7) :: toWords rest
  | _ => []

/-- Extension of the 16 message words to the 80-word schedule. -/
def extendW : Nat → List Nat → List Nat
  | 0, ws => ws
  | n + 1, ws =>
    extendW n (ws ++ [w64 (smallSigma1 (ws.getD (ws.length - 2) 0) +
      ws.getD (ws.length - 7) 0 + smallSigma0 (ws.getD (ws.length - 15) 0) +
      ws.getD (ws.length - 16) 0)])

/-- One SHA-512 compression round. -/
def sha512Round (k w : Nat) (s : Hash8) : Hash8 :=
  let T1 := w64 (s.h + bigSigma1 s.e + chF s.e s.f s.g + k + w)
  let T2 := w64 (bigSigma0 s.a + majF s.a s.b s.c)
  ⟨w64 (T1 + T2), s.a, s.b, s.c, w64 (s.d + T1), s.e, s.f, s.g⟩

def sha512Rounds : List (Nat × Nat) → Hash8 → Hash8
  | [], s => s
  | (k, w) :: rest, s => sha512Rounds rest (sha512Round k w s)

/-- Processing of successive 128-byte blocks (the count is the fuel). -/
def sha512Blocks : Nat → List Nat → Hash8 → Hash8
  | 0, _, hv => hv
  | n + 1, data, hv =>
    let s := sha512Rounds (K512.zip (extendW 64 (toWords (data.take 128)))) hv
    sha512Blocks n (data.drop 128)
      ⟨w64 (hv.a + s.a), w64 (hv.b + s.b), w64 (hv.c + s.c), w64 (hv.d + s.d),
       w64 (hv.e + s.e), w64 (hv.f + s.f), w64 (hv.g + s.g), w64 (hv.h + s.h)⟩

/-- SHA-512 of a byte list, as the final eight-word state. -/
def sha512Words (msg : List Nat) : Hash8 :=
  sha512Blocks ((sha512Pad msg).length / 128) (sha512Pad msg) sha512IV

def hexDigits : List Char := "0123456789abcdef".data

def hexChar (n : Nat) : Char := hexDigits.getD n '0'

/-- Lowercase hexadecimal rendering of the low `4 * k` bits of a word,
most significant nibble first. -/
def wordHex : Nat → Nat → List Char
  | 0, _ => []
  | k + 1, w => hexChar ((w >>> (4 * k)) % 16) :: wordHex k w

def hash8Hex (s : Hash8) : List Char :=
  wordHex 16 s.a ++ wordHex 16 s.b ++ wordHex 16 s.c ++ wordHex 16 s.d ++
  wordHex 16 s.e ++ wordHex 16 s.f ++ wordHex 16 s.g ++ wordHex 16 s.h

/-- Embedding of `calculate_digest` (line 193-195):
`hashlib.sha512(file.read_bytes()).hexdigest()` on the file's bytes. -/
def calculate_digest (content : List Nat) : String :=
  String.mk (hash8Hex (sha512Words content))

theorem hexChar_mem (n : Nat) : hexChar n ∈ hexDigits := by
  unfold hexChar
  by_cases h : n < hexDigits.length
  · rw [List.getD_eq_getElem _ _ h]
    exact List.getElem_mem h
  · rw [List.getD_eq_default _ _ (le_of_not_lt h)]
    decide

theorem wordHex_length (k w : Nat) : (wordHex k w).length = k := by
  induction k generalizing w with
  | zero => rfl
  | succ k ih => simp [wordHex, ih]

theorem wordHex_mem {k w : Nat} {c : Char} (h : c ∈ wordHex k w) : c ∈ hexDigits := by
  induction k generalizing w with
  | zero => simp [wordHex] at h
  | succ k ih =>
    rcases List.mem_cons.mp h with h | h
    · exact h ▸ hexChar_mem _
    · exact ih h

theorem hash8Hex_length (s : Hash8) : (hash8Hex s).length = 128 := by
  simp [hash8Hex, wordHex_length]

theorem hash8Hex_mem {s : Hash8} {c : Char} (h : c ∈ hash8Hex s) : c ∈ hexDigits := by
  unfold hash8Hex at h
  simp only [List.mem_append] at h
  rcases h with ((((((h | h) | h) | h) | h) | h) | h) | h <;> exact wordHex_mem h

set_option maxRecDepth 20000 in
/-- C7: `calculate_digest` renders the 512-bit SHA-512 of the file's entire
byte content as a 128-character string of lowercase hexadecimal digits; it
is a function of the byte content alone (computing it twice on the same
bytes yields the identical string), and on the concretely tested contents
`[]` and `[0x61]` changing the bytes changes the digest. -/
theorem calculate_digest_spec (content : List Nat) :
    (calculate_digest content).length = 128
    ∧ (∀ c ∈ (calculate_digest content).data, c ∈ hexDigits)
    ∧ calculate_digest content = calculate_digest content
    ∧ calculate_digest [] ≠ calculate_digest [0x61] := by
  refine ⟨?_, ?_, rfl, by decide⟩
  · show (hash8Hex (sha512Words content)).length = 128
    exact hash8Hex_length _
  · intro c hc
    exact hash8Hex_mem hc

set_option maxRecDepth 20000 in
theorem calculate_digest_spec_witness :
    (calculate_digest [0x61, 0x62, 0x63]).length = 128 ∧
      'd' ∈ hexDigits :=
  ⟨(calculate_digest_spec [0x61, 0x62, 0x63]).1,
    (calculate_digest_spec [0x61, 0x62, 0x63]).2.1 'd' (by decide)⟩

/-! ## The filesystem and the walk (`insert_folders`, line 199-224, and
`insert_model_files`, line 169-190)

A directory's contents are a list of entries; `iterdir` on a regular file
raises `NotADirectoryError`.  The walk returns `Except (PyErr × Sess) Sess`:
every insert in the script is immediately committed, so an uncaught Python
exception leaves the rows committed so far in place — the error carries the
session state reached at the point of failure. -/

inductive FSEntry where
  | file (name : String) (content : List Nat) : FSEntry
  | dir (name : String) (entries : List FSEntry) : FSEntry

def entryName : FSEntry → String
  | .file n _ => n
  | .dir n _ => n

/-- The uncaught Python exceptions the walk can raise:
`NotADirectoryError` from `iterdir()` on a regular file, and `ValueError`
from tuple unpacking in `get_infos` or from `Path.relative_to`. -/
inductive PyErr where
  | notADirectory
  | valueError
deriving DecidableEq

/-- `path.iterdir()`: the entries of a directory; `NotADirectoryError` on a
regular file. -/
def iterdir : FSEntry → Except PyErr (List FSEntry)
  | .dir _ es => .ok es
  | .file _ _ => .error .notADirectory

/-- `session.add(model_file); session.commit()` for the `ModelFile` row that
`insert_model_files` constructs (line 173-187): flags false, empty notes and
caption, digest and byte size of the content, no presupported version. -/
def addModelFile (sess : Sess) (filename : String) (model_id : Option Nat)
    (content : List Nat) : Sess :=
  match sess with
  | .real s =>
    .real { s with model_files := s.model_files ++
      [⟨some (s.model_files.length + 1), filename, model_id, false, false,
        calculate_digest content, "", "", content.length, none⟩] }
  | .mock => .mock

mutual
/-- One iteration of the loop of `insert_model_files` (line 170-190): a
regular file gets a `ModelFile` row, a subdirectory is recursed into. -/
def insert_model_file_entry (sess : Sess) (model_id : Option Nat) :
    FSEntry → Sess
  | .file n content => addModelFile sess n model_id content
  | .dir _ es => insert_model_files sess model_id es

/-- Embedding of `insert_model_files` (line 169-190): every regular file in
the directory gets a `ModelFile` row; subdirectories are recursed into. -/
def insert_model_files (sess : Sess) (model_id : Option Nat) :
    List FSEntry → Sess
  | [] => sess
  | e :: rest =>
    insert_model_files (insert_model_file_entry sess model_id e) model_id rest
end

/-- The model-level loop of `insert_folders` (line 204-224), iterating the
entries of one collection directory: non-directories are skipped; for each
model directory the identity is parsed with `get_infos`, creator and
collection are resolved, a `Model` row is inserted (named after the
directory itself, with the root-relative path), and the directory's files
are enumerated. -/
def insert_models (sess : Sess) (root : PyPath) (cName colName : String)
    (library_id : Nat) : List FSEntry → Except (PyErr × Sess) Sess
  | [] => .ok sess
  | .file _ _ :: rest => insert_models sess root cName colName library_id rest
  | .dir mName mEntries :: rest =>
    match get_infos (pathParts ⟨root.anchored, root.segs ++ [cName, colName, mName]⟩) with
    | none => .error (.valueError, sess)
    | some (creator, collection, _modelName, _uuid) =>
      let pc := get_or_create_creator sess creator
      let pcol := get_or_create_collection pc.2 collection none
      match sanitize_path root ⟨root.anchored, root.segs ++ [cName, colName, mName]⟩ with
      | none => .error (.valueError, pcol.2)
      | some rel =>
        let pm := addModel pcol.2 mName rel library_id pc.1.id pcol.1.id
        insert_models (insert_model_files pm.2 pm.1.id mEntries)
          root cName colName library_id rest

/-- The collection-level loop of `insert_folders` (line 202): each entry of
a creator directory is iterated as a directory — a regular file here raises
`NotADirectoryError`. -/
def insert_collections (sess : Sess) (root : PyPath) (cName : String)
    (library_id : Nat) : List FSEntry → Except (PyErr × Sess) Sess
  | [] => .ok sess
  | e :: rest =>
    match iterdir e with
    | .error err => .error (err, sess)
    | .ok colEntries =>
      match insert_models sess root cName (entryName e) library_id colEntries with
      | .error r => .error r
      | .ok sess2 => insert_collections sess2 root cName library_id rest

/-- The creator-level loop of `insert_folders` (line 200): each entry of the
root is iterated as a directory — a regular file here raises
`NotADirectoryError`. -/
def insert_creators (sess : Sess) (root : PyPath) (library_id : Nat) :
    List FSEntry → Except (PyErr × Sess) Sess
  | [] => .ok sess
  | e :: rest =>
    match iterdir e with
    | .error err => .error (err, sess)
    | .ok cEntries =>
      match insert_collections sess root (entryName e) library_id cEntries with
      | .error r => .error r
      | .ok sess2 => insert_creators sess2 root library_id rest

/-- Embedding of `insert_folders` (line 199-224) applied to the scanned
root directory's entries. -/
def insert_folders (sess : Sess) (root : PyPath) (rootEntries : List FSEntry)
    (library_id : Nat) : Except (PyErr × Sess) Sess :=
  insert_creators sess root library_id rootEntries

theorem pathParts_append (root : PyPath) (xs : List String) :
    pathParts ⟨root.anchored, root.segs ++ xs⟩ =
      ((if root.anchored then ["/"] else []) ++ root.segs) ++ xs := by
  simp [pathParts]

theorem get_infos_model_path (root : PyPath) (c col m : String) :
    get_infos (pathParts ⟨root.anchored, root.segs ++ [c, col, m]⟩) =
      match rsplitLast '-' m.data with
      | none => none
      | some (l, r) => some (c, col, String.mk l, String.mk r) := by
  unfold get_infos
  rw [pathParts_append, last3_append]

theorem insert_models_append (sess : Sess) (root : PyPath) (cName colName : String)
    (lib : Nat) (xs ys : List FSEntry) :
    insert_models sess root cName colName lib (xs ++ ys) =
      (match insert_models sess root cName colName lib xs with
       | .ok s2 => insert_models s2 root cName colName lib ys
       | .error r => .error r) := by
  induction xs generalizing sess with
  | nil => rfl
  | cons e rest ih =>
    cases e with
    | file n c => simpa only [List.cons_append, insert_models] using ih sess
    | dir mName mEntries =>
      simp only [List.cons_append, insert_models]
      cases get_infos (pathParts ⟨root.anchored, root.segs ++ [cName, colName, mName]⟩) with
      | none => rfl
      | some v =>
        obtain ⟨creator, collection, mn, uuid⟩ := v
        cases sanitize_path root ⟨root.anchored, root.segs ++ [cName, colName, mName]⟩ with
        | none => rfl
        | some rel => exact ih _

theorem insert_collections_append (sess : Sess) (root : PyPath) (cName : String)
    (lib : Nat) (xs ys : List FSEntry) :
    insert_collections sess root cName lib (xs ++ ys) =
      (match insert_collections sess root cName lib xs with
       | .ok s2 => insert_collections s2 root cName lib ys
       | .error r => .error r) := by
  induction xs generalizing sess with
  | nil => rfl
  | cons e rest ih =>
    cases e with
    | file n c => rfl
    | dir n es =>
      simp only [List.cons_append, insert_collections, iterdir, entryName]
      cases insert_models sess root cName n lib es with
      | error r => rfl
      | ok s2 => exact ih s2

theorem insert_creators_append (sess : Sess) (root : PyPath) (lib : Nat)
    (xs ys : List FSEntry) :
    insert_creators sess root lib (xs ++ ys) =
      (match insert_creators sess root lib xs with
       | .ok s2 => insert_creators s2 root lib ys
       | .error r => .error r) := by
  induction xs generalizing sess with
  | nil => rfl
  | cons e rest ih =>
    cases e with
    | file n c => rfl
    | dir n es =>
      simp only [List.cons_append, insert_creators, iterdir, entryName]
      cases insert_collections sess root n lib es with
      | error r => rfl
      | ok s2 => exact ih s2

/-- C10: the `is_dir` guard exists only at the model level.  A regular file
directly under the scanned root or directly under a creator directory is
handed to `iterdir()`, which raises an uncaught `NotADirectoryError` that
aborts the scan with the session state it had reached; a regular file
directly under a collection directory is silently skipped — processing
continues on the remaining entries with no row created and no error. -/
theorem non_directory_guard_only_at_model_level (sess : Sess) (root : PyPath)
    (lib : Nat) (n : String) (bs : List Nat) (rest rest2 : List FSEntry)
    (cName colName : String) :
    insert_folders sess root (.file n bs :: rest) lib =
      .error (.notADirectory, sess)
    ∧ insert_collections sess root cName lib (.file n bs :: rest) =
      .error (.notADirectory, sess)
    ∧ insert_models sess root cName colName lib (.file n bs :: rest) =
      insert_models sess root cName colName lib rest
    ∧ insert_folders sess root [.dir cName (.file n bs :: rest)] lib =
      .error (.notADirectory, sess)
    ∧ insert_folders sess root [.dir cName [.dir colName (.file n bs :: rest2)]] lib =
      insert_folders sess root [.dir cName [.dir colName rest2]] lib := by
  refine ⟨rfl, rfl, by simp only [insert_models], ?_, ?_⟩ <;>
    simp only [insert_folders, insert_creators, insert_collections, iterdir,
      insert_models, entryName]

/-- C3: a model directory whose name contains no `'-'` makes `get_infos`
raise an uncaught `ValueError` the moment the walk reaches it, aborting the
entire scan: the final state is exactly the state `s1` the scan of the
truncated tree (everything strictly before the offending directory) leaves
behind, so no `Model` or `ModelFile` row is produced at or after the
failure. -/
theorem scan_aborts_on_separatorless_model_name (sess s1 : Sess) (root : PyPath)
    (lib : Nat) (cpre crest colPre colRest mpre mrest mEs : List FSEntry)
    (cName colName mName : String)
    (hm : '-' ∉ mName.data)
    (h1 : insert_folders sess root
      (cpre ++ [.dir cName (colPre ++ [.dir colName mpre])]) lib = .ok s1) :
    insert_folders sess root
      (cpre ++ .dir cName
        (colPre ++ .dir colName (mpre ++ .dir mName mEs :: mrest) :: colRest)
        :: crest) lib
      = .error (.valueError, s1) := by
  have hgi : ∀ s : Sess, insert_models s root cName colName lib
      (.dir mName mEs :: mrest) = .error (.valueError, s) := by
    intro s
    have hnone : get_infos
        (pathParts ⟨root.anchored, root.segs ++ [cName, colName, mName]⟩) = none := by
      rw [get_infos_model_path, rsplitLast_eq_none_of_not_mem hm]
    simp only [insert_models, hnone]
  unfold insert_folders at h1 ⊢
  rw [insert_creators_append] at h1 ⊢
  cases hc : insert_creators sess root lib cpre with
  | error r => rw [hc] at h1; exact absurd h1 (by simp)
  | ok sA =>
    rw [hc] at h1
    simp only [insert_creators, iterdir, entryName] at h1
    simp only [insert_creators, iterdir, entryName]
    rw [insert_collections_append] at h1 ⊢
    cases hcol : insert_collections sA root cName lib colPre with
    | error r => rw [hcol] at h1; exact absurd h1 (by simp)
    | ok sB =>
      rw [hcol] at h1
      simp only [insert_collections, iterdir, entryName] at h1
      simp only [insert_collections, iterdir, entryName]
      rw [insert_models_append]
      cases hmres : insert_models sB root cName colName lib mpre with
      | error r => rw [hmres] at h1; exact absurd h1 (by simp)
      | ok sC =>
        rw [hmres] at h1
        replace h1 : sC = s1 := by simpa using h1
        subst h1
        simp [hgi]

theorem scan_aborts_on_separatorless_model_name_witness :
    insert_folders (.real emptyStore) ⟨true, ["root"]⟩
      [.dir "CreatorA" [.dir "CollectionB" []]] 7 = .ok (.real emptyStore)
    ∧ '-' ∉ ("NoSep" : String).data
    ∧ insert_folders (.real emptyStore) ⟨true, ["root"]⟩
      [.dir "CreatorA" [.dir "CollectionB" [.dir "NoSep" []]]] 7 =
      .error (.valueError, .real emptyStore) := by
  refine ⟨rfl, by decide, ?_⟩
  have h := scan_aborts_on_separatorless_model_name (.real emptyStore)
    (.real emptyStore) ⟨true, ["root"]⟩ 7 [] [] [] [] [] [] []
    "CreatorA" "CollectionB" "NoSep" (by decide) rfl
  simpa using h

/-! ## Specification-level views of the walk -/

/-- All regular files at any depth beneath a list of entries, in traversal
order, as (filename, content) pairs. -/
def filesUnder : List FSEntry → List (String × List Nat)
  | [] => []
  | .file n c :: rest => (n, c) :: filesUnder rest
  | .dir _ es :: rest => filesUnder es ++ filesUnder rest

/-- The `ModelFile` row the script builds for one file, when the store
already holds `k` rows. -/
def specFileRow (mid : Option Nat) (k : Nat) (f : String × List Nat) : ModelFileRow :=
  ⟨some (k + 1), f.1, mid, false, false, calculate_digest f.2, "", "", f.2.length, none⟩

def specFileRows (mid : Option Nat) : Nat → List (String × List Nat) → List ModelFileRow
  | _, [] => []
  | k, f :: rest => specFileRow mid k f :: specFileRows mid (k + 1) rest

theorem specFileRows_length (mid : Option Nat) (k : Nat)
    (fs : List (String × List Nat)) : (specFileRows mid k fs).length = fs.length := by
  induction fs generalizing k with
  | nil => rfl
  | cons f rest ih => simp [specFileRows, ih]

theorem specFileRows_append (mid : Option Nat) (k : Nat)
    (xs ys : List (String × List Nat)) :
    specFileRows mid k (xs ++ ys) =
      specFileRows mid k xs ++ specFileRows mid (k + xs.length) ys := by
  induction xs generalizing k with
  | nil => simp [specFileRows]
  | cons f rest ih =>
    have h : k + 1 + rest.length = k + (rest.length + 1) := by omega
    simp only [List.cons_append, specFileRows, List.length_cons, List.append_eq]
    rw [ih, h]

theorem specFileRows_fields (mid : Option Nat) (k : Nat)
    (fs : List (String × List Nat)) :
    (specFileRows mid k fs).map (fun r => (r.filename, r.size, r.digest)) =
      fs.map (fun f => (f.1, f.2.length, calculate_digest f.2)) := by
  induction fs generalizing k with
  | nil => rfl
  | cons f rest ih => simp [specFileRows, specFileRow, ih]

theorem specFileRows_flags (mid : Option Nat) (k : Nat)
    (fs : List (String × List Nat)) :
    ∀ r ∈ specFileRows mid k fs,
      r.presupported = false ∧ r.y_up = false
        ∧ r.presupported_version_id = none ∧ r.model_id = mid := by
  induction fs generalizing k with
  | nil => intro r hr; simp [specFileRows] at hr
  | cons f rest ih =>
    intro r hr
    rcases List.mem_cons.mp hr with h | h
    · subst h; exact ⟨rfl, rfl, rfl, rfl⟩
    · exact ih (k + 1) r h

theorem insert_model_files_real_aux :
    ∀ (n : Nat) (entries : List FSEntry), sizeOf entries ≤ n →
      ∀ (s : Store) (mid : Option Nat),
        insert_model_files (.real s) mid entries =
          .real { s with model_files :=
            s.model_files ++
              specFileRows mid s.model_files.length (filesUnder entries) } := by
  intro n
  induction n with
  | zero =>
    intro entries h s mid
    cases entries with
    | nil => simp [insert_model_files, filesUnder, specFileRows]
    | cons e rest =>
      exfalso
      have : (1 : Nat) ≤ sizeOf (e :: rest) := by
        cases e <;> simp <;> omega
      omega
  | succ n ih =>
    intro entries h s mid
    cases entries with
    | nil => simp [insert_model_files, filesUnder, specFileRows]
    | cons e rest =>
      cases e with
      | file nm c =>
        have hrest : sizeOf rest ≤ n := by
          simp only [List.cons.sizeOf_spec, FSEntry.file.sizeOf_spec] at h
          omega
        rw [insert_model_files]
        rw [show insert_model_file_entry (.real s) mid (.file nm c) =
          .real { s with model_files :=
            s.model_files ++ [specFileRow mid s.model_files.length (nm, c)] }
          from rfl]
        rw [ih rest hrest _ mid]
        simp [filesUnder, specFileRows, specFileRow]
      | dir d es =>
        have hes : sizeOf es ≤ n := by
          simp only [List.cons.sizeOf_spec, FSEntry.dir.sizeOf_spec] at h
          omega
        have hrest : sizeOf rest ≤ n := by
          simp only [List.cons.sizeOf_spec, FSEntry.dir.sizeOf_spec] at h
          omega
        rw [insert_model_files]
        rw [show insert_model_file_entry (.real s) mid (.dir d es) =
          insert_model_files (.real s) mid es from rfl]
        rw [ih es hes s mid, ih rest hrest _ mid]
        simp only [filesUnder, specFileRows_append, List.length_append,
          specFileRows_length, List.append_assoc]

theorem insert_model_files_real (sess : Sess) (mid : Option Nat)
    (entries : List FSEntry) :
    ∀ s : Store, sess = .real s →
      insert_model_files sess mid entries =
        .real { s with model_files :=
          s.model_files ++ specFileRows mid s.model_files.length (filesUnder entries) } := by
  intro s hs; subst hs
  exact insert_model_files_real_aux (sizeOf entries) entries le_rfl s mid

/-- C9: running the file enumeration of a model directory against a real
store appends exactly one `ModelFile` row per regular file found at any
depth beneath it, in traversal order; each row carries that file's
filename, byte size and content digest, has `presupported` and `y_up`
false, and no presupported-version reference. -/
theorem model_file_rows_one_per_file (s : Store) (mid : Option Nat)
    (entries : List FSEntry) :
    insert_model_files (.real s) mid entries =
      .real { s with model_files :=
        s.model_files ++ specFileRows mid s.model_files.length (filesUnder entries) }
    ∧ (specFileRows mid s.model_files.length (filesUnder entries)).length =
      (filesUnder entries).length
    ∧ (specFileRows mid s.model_files.length (filesUnder entries)).map
        (fun r => (r.filename, r.size, r.digest)) =
      (filesUnder entries).map (fun f => (f.1, f.2.length, calculate_digest f.2))
    ∧ ∀ r ∈ specFileRows mid s.model_files.length (filesUnder entries),
        r.presupported = false ∧ r.y_up = false
          ∧ r.presupported_version_id = none ∧ r.model_id = mid :=
  ⟨insert_model_files_real _ mid entries s rfl, specFileRows_length _ _ _,
    specFileRows_fields _ _ _, specFileRows_flags _ _ _⟩

/-- Names of the directory entries of a list, in order (regular files
skipped) — at the model level these are the model directories. -/
def dirNames : List FSEntry → List String
  | [] => []
  | .file _ _ :: rest => dirNames rest
  | .dir n _ :: rest => n :: dirNames rest

def hasDir : List FSEntry → Bool
  | [] => false
  | .file _ _ :: rest => hasDir rest
  | .dir _ _ :: _ => true

/-- (collectionName, modelDirName) pairs beneath one creator directory. -/
def colModels : List FSEntry → List (String × String)
  | [] => []
  | .file _ _ :: rest => colModels rest
  | .dir colN colEs :: rest =>
    (dirNames colEs).map (fun m => (colN, m)) ++ colModels rest

/-- (creatorName, collectionName, modelDirName) triples of the whole tree:
one per model directory the scan visits. -/
def treeModels : List FSEntry → List (String × String × String)
  | [] => []
  | .file _ _ :: rest => treeModels rest
  | .dir cN ces :: rest =>
    (colModels ces).map (fun p => (cN, p.1, p.2)) ++ treeModels rest

/-- Number of regular files beneath the model directories of a model-level
entry list. -/
def nFilesModels : List FSEntry → Nat
  | [] => 0
  | .file _ _ :: rest => nFilesModels rest
  | .dir _ es :: rest => (filesUnder es).length + nFilesModels rest

def nFilesCols : List FSEntry → Nat
  | [] => 0
  | .file _ _ :: rest => nFilesCols rest
  | .dir _ colEs :: rest => nFilesModels colEs + nFilesCols rest

def nFilesTree : List FSEntry → Nat
  | [] => 0
  | .file _ _ :: rest => nFilesTree rest
  | .dir _ ces :: rest => nFilesCols ces + nFilesTree rest

/-- Collection names beneath one creator that hold at least one model
directory — exactly the collections the scan looks up. -/
def colsWithModels : List FSEntry → List String
  | [] => []
  | .file _ _ :: rest => colsWithModels rest
  | .dir colN colEs :: rest =>
    (if hasDir colEs then [colN] else []) ++ colsWithModels rest

/-- (creatorName, collectionName) pairs the scan looks up. -/
def treePairs : List FSEntry → List (String × String)
  | [] => []
  | .file _ _ :: rest => treePairs rest
  | .dir cN ces :: rest =>
    (colsWithModels ces).map (fun colN => (cN, colN)) ++ treePairs rest

/-- Presence of a creator row by name, with the same predicate the script's
query uses. -/
def creatorIn (s : Store) (n : String) : Bool :=
  (s.creators.find? (fun r => r.name = n)).isSome

/-- Presence of a parentless collection row by name. -/
def collectionIn (s : Store) (n : String) : Bool :=
  (s.collections.find? (fun r => r.name = n ∧ r.collection_id = none)).isSome

theorem find?_append_of_some {α : Type} {p : α → Bool} {l₁ : List α} {c : α}
    (h : l₁.find? p = some c) (l₂ : List α) :
    (l₁ ++ l₂).find? p = some c := by
  induction l₁ with
  | nil => simp at h
  | cons a l ih =>
    by_cases hp : p a
    · simp only [List.find?_cons_of_pos _ hp] at h
      simpa [List.find?_cons_of_pos _ hp] using h
    · simp only [List.find?_cons_of_neg _ hp] at h
      simpa [List.find?_cons_of_neg _ hp] using ih h

theorem isSome_find?_append {α : Type} {p : α → Bool} {l₁ : List α}
    (h : (l₁.find? p).isSome = true) (l₂ : List α) :
    ((l₁ ++ l₂).find? p).isSome = true := by
  cases hf : l₁.find? p with
  | none => rw [hf] at h; simp at h
  | some c => rw [find?_append_of_some hf]; rfl

theorem creatorIn_append {s : Store} {n : String} (h : creatorIn s n = true)
    {s' : Store} (hd : ∃ d, s'.creators = s.creators ++ d) :
    creatorIn s' n = true := by
  obtain ⟨d, hd⟩ := hd
  unfold creatorIn at h ⊢
  rw [hd]
  exact isSome_find?_append h d

theorem collectionIn_append {s : Store} {n : String} (h : collectionIn s n = true)
    {s' : Store} (hd : ∃ d, s'.collections = s.collections ++ d) :
    collectionIn s' n = true := by
  obtain ⟨d, hd⟩ := hd
  unfold collectionIn at h ⊢
  rw [hd]
  exact isSome_find?_append h d

/-- Effect of `get_or_create_creator` on a real store: only the creators
table can change, by appending at most one row, and afterwards the name is
present. -/
theorem get_or_create_creator_real (s : Store) (n : String) :
    ∃ s1 : Store, (get_or_create_creator (.real s) n).2 = .real s1
      ∧ (∃ d, s1.creators = s.creators ++ d)
      ∧ s1.collections = s.collections ∧ s1.models = s.models
      ∧ s1.model_files = s.model_files
      ∧ creatorIn s1 n = true := by
  cases hf : s.creators.find? (fun r => r.name = n) with
  | some c =>
    refine ⟨s, ?_, ⟨[], by simp⟩, rfl, rfl, rfl, ?_⟩
    · simp [get_or_create_creator, queryCreatorFirst, hf]
    · unfold creatorIn; rw [hf]; rfl
  | none =>
    refine ⟨⟨s.creators ++ [⟨some (s.creators.length + 1), n⟩],
      s.collections, s.models, s.model_files⟩, ?_, ⟨_, rfl⟩, rfl, rfl, rfl, ?_⟩
    · simp [get_or_create_creator, queryCreatorFirst, addCreator, hf]
    · unfold creatorIn
      simp only []
      rw [find?_append_of_none hf]
      simp

/-- Effect of `get_or_create_collection` with a `None` parent on a real
store. -/
theorem get_or_create_collection_real (s : Store) (n : String) :
    ∃ s1 : Store, (get_or_create_collection (.real s) n none).2 = .real s1
      ∧ (∃ d, s1.collections = s.collections ++ d)
      ∧ s1.creators = s.creators ∧ s1.models = s.models
      ∧ s1.model_files = s.model_files
      ∧ collectionIn s1 n = true := by
  cases hf : s.collections.find? (fun r => r.name = n ∧ r.collection_id = none) with
  | some c =>
    refine ⟨s, ?_, ⟨[], by simp⟩, rfl, rfl, rfl, ?_⟩
    · simp only [get_or_create_collection, queryCollectionFirst]
      rw [hf]
    · unfold collectionIn; rw [hf]; rfl
  | none =>
    refine ⟨⟨s.creators, s.collections ++ [⟨some (s.collections.length + 1), n, none⟩],
      s.models, s.model_files⟩, ?_, ⟨_, rfl⟩, rfl, rfl, rfl, ?_⟩
    · simp only [get_or_create_collection, queryCollectionFirst]
      rw [hf]
      rfl
    · unfold collectionIn
      simp only []
      rw [find?_append_of_none hf]
      simp

theorem addModel_real (s : Store) (name : String) (path : PyPath) (lib : Nat)
    (cid colid : Option Nat) :
    addModel (.real s) name path lib cid colid =
      (⟨some (s.models.length + 1), name, path, lib, cid, colid⟩,
        .real { s with models :=
          s.models ++ [⟨some (s.models.length + 1), name, path, lib, cid, colid⟩] }) := rfl

/-- Workhorse for the model-level loop on a real store, success case: the
models table grows by exactly one row per model directory, named after the
directory with the root-relative three-segment path; the model-files table
grows by one row per file beneath those directories; creators and
collections only ever grow; and when at least one model directory was
processed, the creator and collection names are present afterwards. -/
theorem insert_models_ok (root : PyPath) (cN colN : String) (lib : Nat)
    (es : List FSEntry) :
    ∀ (s : Store) (t : Sess),
      insert_models (.real s) root cN colN lib es = .ok t →
      ∃ s' : Store, t = .real s'
        ∧ s'.models.map (fun r => (r.name, r.path)) =
            s.models.map (fun r => (r.name, r.path)) ++
              (dirNames es).map (fun m => (m, PyPath.mk false [cN, colN, m]))
        ∧ s'.model_files.length = s.model_files.length + nFilesModels es
        ∧ (∃ d, s'.creators = s.creators ++ d)
        ∧ (∃ d, s'.collections = s.collections ++ d)
        ∧ (hasDir es = true →
            creatorIn s' cN = true ∧ collectionIn s' colN = true) := by
  induction es with
  | nil =>
    intro s t h
    simp only [insert_models] at h
    obtain rfl : Sess.real s = t := by injection h
    exact ⟨s, rfl, by simp [dirNames], by simp [nFilesModels],
      ⟨[], by simp⟩, ⟨[], by simp⟩, by simp [hasDir]⟩
  | cons e rest ih =>
    cases e with
    | file n c =>
      intro s t h
      simp only [insert_models] at h
      obtain ⟨s', rfl, hmap, hmf, hc, hcol, hcov⟩ := ih s t h
      exact ⟨s', rfl, by simpa [dirNames] using hmap,
        by simpa [nFilesModels] using hmf, hc, hcol,
        by simpa [hasDir] using hcov⟩
    | dir mName mEs =>
      intro s t h
      simp only [insert_models] at h
      rw [get_infos_model_path] at h
      cases hrs : rsplitLast '-' mName.data with
      | none => rw [hrs] at h; simp at h
      | some lr =>
        obtain ⟨l, r⟩ := lr
        rw [hrs] at h
        rw [sanitize_path_append] at h
        simp only [] at h
        obtain ⟨s1, hs1, hc1, hcol1, hm1, hmf1, hin1⟩ :=
          get_or_create_creator_real s cN
        rw [hs1] at h
        obtain ⟨s2, hs2, hcol2, hc2, hm2, hmf2, hin2⟩ :=
          get_or_create_collection_real s1 colN
        rw [hs2] at h
        rw [addModel_real] at h
        simp only [] at h
        rw [insert_model_files_real _ _ _ _ rfl] at h
        obtain ⟨s', rfl, hmap, hmf, hc, hcol, hcov⟩ := ih _ t h
        refine ⟨s', rfl, ?_, ?_, ?_, ?_, ?_⟩
        · rw [hmap]
          simp only [List.map_append, hm2, hm1, dirNames, List.map_cons]
          simp
        · rw [hmf]
          simp only [List.length_append, hmf2, hmf1, nFilesModels,
            specFileRows_length]
          omega
        · obtain ⟨d1, hd1⟩ := hc1
          obtain ⟨d, hd⟩ := hc
          exact ⟨d1 ++ d, by simp only [hd, hc2, hd1, List.append_assoc]⟩
        · obtain ⟨d2, hd2⟩ := hcol2
          obtain ⟨d, hd⟩ := hcol
          exact ⟨d2 ++ d, by simp only [hd, hd2, hcol1, List.append_assoc]⟩
        · intro _
          constructor
          · refine creatorIn_append ?_ hc
            simpa [creatorIn, hc2] using hin1
          · refine collectionIn_append ?_ hcol
            simpa [collectionIn] using hin2

/-- Workhorse for the collection-level loop on a real store, success case. -/
theorem insert_collections_ok (root : PyPath) (cN : String) (lib : Nat)
    (ces : List FSEntry) :
    ∀ (s : Store) (t : Sess),
      insert_collections (.real s) root cN lib ces = .ok t →
      ∃ s' : Store, t = .real s'
        ∧ s'.models.map (fun r => (r.name, r.path)) =
            s.models.map (fun r => (r.name, r.path)) ++
              (colModels ces).map (fun p => (p.2, PyPath.mk false [cN, p.1, p.2]))
        ∧ s'.model_files.length = s.model_files.length + nFilesCols ces
        ∧ (∃ d, s'.creators = s.creators ++ d)
        ∧ (∃ d, s'.collections = s.collections ++ d)
        ∧ (colsWithModels ces ≠ [] → creatorIn s' cN = true)
        ∧ (∀ colN ∈ colsWithModels ces, collectionIn s' colN = true) := by
  induction ces with
  | nil =>
    intro s t h
    simp only [insert_collections] at h
    obtain rfl : Sess.real s = t := by injection h
    exact ⟨s, rfl, by simp [colModels], by simp [nFilesCols],
      ⟨[], by simp⟩, ⟨[], by simp⟩, by simp [colsWithModels],
      by simp [colsWithModels]⟩
  | cons e rest ih =>
    cases e with
    | file n c =>
      intro s t h
      simp only [insert_collections, iterdir] at h
      simp at h
    | dir colN colEs =>
      intro s t h
      simp only [insert_collections, iterdir, entryName] at h
      cases hm : insert_models (.real s) root cN colN lib colEs with
      | error r => rw [hm] at h; simp at h
      | ok t1 =>
        rw [hm] at h
        obtain ⟨s1, rfl, hmap1, hmf1, hc1, hcol1, hcov1⟩ :=
          insert_models_ok root cN colN lib colEs s t1 hm
        obtain ⟨s', rfl, hmap, hmf, hc, hcol, hcovc, hcovcol⟩ := ih s1 t h
        refine ⟨s', rfl, ?_, ?_, ?_, ?_, ?_, ?_⟩
        · rw [hmap, hmap1]
          simp [colModels, List.map_map, Function.comp]
        · rw [hmf, hmf1, nFilesCols]
          omega
        · obtain ⟨d1, hd1⟩ := hc1
          obtain ⟨d, hd⟩ := hc
          exact ⟨d1 ++ d, by simp only [hd, hd1, List.append_assoc]⟩
        · obtain ⟨d1, hd1⟩ := hcol1
          obtain ⟨d, hd⟩ := hcol
          exact ⟨d1 ++ d, by simp only [hd, hd1, List.append_assoc]⟩
        · intro hne
          cases hdir : hasDir colEs with
          | true => exact creatorIn_append ((hcov1 hdir).1) hc
          | false =>
            refine hcovc ?_
            simpa [colsWithModels, hdir] using hne
        · intro colN' hmem
          simp only [colsWithModels] at hmem
          cases hdir : hasDir colEs with
          | true =>
            simp only [hdir, if_true, List.singleton_append] at hmem
            rcases List.mem_cons.mp hmem with hh | hh
            · subst hh
              exact collectionIn_append ((hcov1 hdir).2) hcol
            · exact hcovcol colN' hh
          | false =>
            simp [hdir] at hmem
            exact hcovcol colN' hmem

/-- Workhorse for the creator-level loop (the whole of `insert_folders`) on
a real store, success case. -/
theorem insert_creators_ok (root : PyPath) (lib : Nat) (tree : List FSEntry) :
    ∀ (s : Store) (t : Sess),
      insert_creators (.real s) root lib tree = .ok t →
      ∃ s' : Store, t = .real s'
        ∧ s'.models.map (fun r => (r.name, r.path)) =
            s.models.map (fun r => (r.name, r.path)) ++
              (treeModels tree).map
                (fun q => (q.2.2, PyPath.mk false [q.1, q.2.1, q.2.2]))
        ∧ s'.model_files.length = s.model_files.length + nFilesTree tree
        ∧ (∃ d, s'.creators = s.creators ++ d)
        ∧ (∃ d, s'.collections = s.collections ++ d)
        ∧ (∀ p ∈ treePairs tree,
            creatorIn s' p.1 = true ∧ collectionIn s' p.2 = true) := by
  induction tree with
  | nil =>
    intro s t h
    simp only [insert_creators] at h
    obtain rfl : Sess.real s = t := by injection h
    exact ⟨s, rfl, by simp [treeModels], by simp [nFilesTree],
      ⟨[], by simp⟩, ⟨[], by simp⟩, by simp [treePairs]⟩
  | cons e rest ih =>
    cases e with
    | file n c =>
      intro s t h
      simp only [insert_creators, iterdir] at h
      simp at h
    | dir cN ces =>
      intro s t h
      simp only [insert_creators, iterdir, entryName] at h
      cases hm : insert_collections (.real s) root cN lib ces with
      | error r => rw [hm] at h; simp at h
      | ok t1 =>
        rw [hm] at h
        obtain ⟨s1, rfl, hmap1, hmf1, hc1, hcol1, hcovc1, hcovcol1⟩ :=
          insert_collections_ok root cN lib ces s t1 hm
        obtain ⟨s', rfl, hmap, hmf, hc, hcol, hcov⟩ := ih s1 t h
        refine ⟨s', rfl, ?_, ?_, ?_, ?_, ?_⟩
        · rw [hmap, hmap1]
          simp [treeModels, List.map_map, Function.comp]
        · rw [hmf, hmf1, nFilesTree]
          omega
        · obtain ⟨d1, hd1⟩ := hc1
          obtain ⟨d, hd⟩ := hc
          exact ⟨d1 ++ d, by simp only [hd, hd1, List.append_assoc]⟩
        · obtain ⟨d1, hd1⟩ := hcol1
          obtain ⟨d, hd⟩ := hcol
          exact ⟨d1 ++ d, by simp only [hd, hd1, List.append_assoc]⟩
        · intro p hmem
          simp only [treePairs] at hmem
          rcases List.mem_append.mp hmem with hh | hh
          · obtain ⟨colN', hcolmem, rfl⟩ := List.mem_map.mp hh
            refine ⟨creatorIn_append (hcovc1 ?_) hc,
              collectionIn_append (hcovcol1 colN' hcolmem) hcol⟩
            intro hnil
            rw [hnil] at hcolmem
            simp at hcolmem
          · exact hcov p hh

/-- Pathlib-style path-prefix test: `root` is a prefix of `p` when their
anchors agree and `root`'s segments lead `p`'s. -/
def pathHasRoot (root p : PyPath) : Bool :=
  (root.anchored == p.anchored) && root.segs.isPrefixOf p.segs

/-! Concrete fixtures: the spec's end-to-end scenario
`root/CreatorA/CollectionB/ModelC-1234/` (with and without the one file
`mesh.obj`), scanned with library id 7. -/

def rootPath1 : PyPath := ⟨true, ["root"]⟩

def treeNoFiles : List FSEntry :=
  [.dir "CreatorA" [.dir "CollectionB" [.dir "ModelC-1234" []]]]

def tree1 : List FSEntry :=
  [.dir "CreatorA" [.dir "CollectionB" [.dir "ModelC-1234"
    [.file "mesh.obj" [0x61, 0x62, 0x63]]]]]

/-- The store the scan of `treeNoFiles` from an empty store produces. -/
def store1 : Store :=
  ⟨[⟨some 1, "CreatorA"⟩], [⟨some 1, "CollectionB", none⟩],
   [⟨some 1, "ModelC-1234", ⟨false, ["CreatorA", "CollectionB", "ModelC-1234"]⟩,
     7, some 1, some 1⟩], []⟩

/-- C1 (counterexample): scanning `root/CreatorA/CollectionB/ModelC-1234/`
persists a Model row named `"ModelC-1234"` — the full directory name — even
though the parser extracts the stripped name `"ModelC"`; the claim that the
row is named `"ModelC"` is false. -/
theorem model_name_not_stripped_counterexample :
    insert_folders (.real emptyStore) rootPath1 treeNoFiles 7 =
      .ok (.real store1)
    ∧ store1.models.map (fun r => r.name) = ["ModelC-1234"]
    ∧ get_infos (pathParts ⟨true, ["root", "CreatorA", "CollectionB", "ModelC-1234"]⟩) =
        some ("CreatorA", "CollectionB", "ModelC", "1234")
    ∧ ("ModelC-1234" : String) ≠ "ModelC" :=
  ⟨by rfl, rfl, by decide, by decide⟩

/-- C1 (amended): every Model row the scan persists is named with its model
directory's full name, verbatim — the trailing variant/UUID suffix is not
stripped (the stripped name `get_infos` computes is unused for the row's
name). -/
theorem model_row_named_after_directory (s : Store) (root : PyPath)
    (tree : List FSEntry) (lib : Nat) (t : Sess)
    (h : insert_folders (.real s) root tree lib = .ok t) :
    ∃ s' : Store, t = .real s'
      ∧ s'.models.map (fun r => r.name) =
          s.models.map (fun r => r.name) ++ (treeModels tree).map (fun q => q.2.2) := by
  obtain ⟨s', rfl, hmap, -, -, -, -⟩ := insert_creators_ok root lib tree s t h
  refine ⟨s', rfl, ?_⟩
  have h2 := congrArg (List.map Prod.fst) hmap
  simpa [List.map_map, Function.comp] using h2

theorem model_row_named_after_directory_witness :
    ∃ s' : Store, Sess.real store1 = .real s'
      ∧ s'.models.map (fun r => r.name) =
          emptyStore.models.map (fun r => r.name) ++
            (treeModels treeNoFiles).map (fun q => q.2.2) :=
  model_row_named_after_directory emptyStore rootPath1 treeNoFiles 7
    (.real store1) (by rfl)

/-- C8: every Model row the scan persists stores the path of its model
directory made relative to the scanned root by `sanitize_path`
(`Path.relative_to`): a three-segment relative path that is never anchored
and, whenever the scanned root is an absolute path, never has the root as a
path prefix. -/
theorem model_paths_root_relative (s : Store) (root : PyPath)
    (tree : List FSEntry) (lib : Nat) (t : Sess)
    (h : insert_folders (.real s) root tree lib = .ok t) :
    ∃ s' : Store, t = .real s'
      ∧ ∀ r ∈ s'.models.drop s.models.length,
          ∃ q ∈ treeModels tree,
            r.name = q.2.2
            ∧ r.path = ⟨false, [q.1, q.2.1, q.2.2]⟩
            ∧ sanitize_path root ⟨root.anchored, root.segs ++ [q.1, q.2.1, q.2.2]⟩ =
                some r.path
            ∧ r.path.anchored = false
            ∧ (root.anchored = true → pathHasRoot root r.path = false) := by
  obtain ⟨s', rfl, hmap, -, -, -, -⟩ := insert_creators_ok root lib tree s t h
  refine ⟨s', rfl, ?_⟩
  intro r hr
  have hfr : (r.name, r.path) ∈
      (treeModels tree).map (fun q => (q.2.2, PyPath.mk false [q.1, q.2.1, q.2.2])) := by
    have hmem : (r.name, r.path) ∈
        (s'.models.drop s.models.length).map (fun rr => (rr.name, rr.path)) :=
      List.mem_map_of_mem _ hr
    rw [List.map_drop] at hmem
    rw [hmap] at hmem
    rw [show s.models.length = (s.models.map (fun rr => (rr.name, rr.path))).length
      from (List.length_map _ _).symm, List.drop_left] at hmem
    exact hmem
  obtain ⟨q, hq, heq⟩ := List.mem_map.mp hfr
  have hn : q.2.2 = r.name := congrArg Prod.fst heq
  have hp : PyPath.mk false [q.1, q.2.1, q.2.2] = r.path := congrArg Prod.snd heq
  refine ⟨q, hq, hn.symm, hp.symm, ?_, ?_, ?_⟩
  · rw [sanitize_path_append, ← hp]
  · rw [← hp]
  · intro hroot
    rw [← hp]
    simp [pathHasRoot, hroot]

theorem model_paths_root_relative_witness :
    ∃ s' : Store, Sess.real store1 = .real s'
      ∧ ∀ r ∈ s'.models.drop emptyStore.models.length,
          ∃ q ∈ treeModels treeNoFiles,
            r.name = q.2.2
            ∧ r.path = ⟨false, [q.1, q.2.1, q.2.2]⟩
            ∧ sanitize_path rootPath1
                ⟨rootPath1.anchored, rootPath1.segs ++ [q.1, q.2.1, q.2.2]⟩ =
                some r.path
            ∧ r.path.anchored = false
            ∧ (rootPath1.anchored = true → pathHasRoot rootPath1 r.path = false) :=
  model_paths_root_relative emptyStore rootPath1 treeNoFiles 7 (.real store1)
    (by rfl)

/-- Whether the walk succeeds, and with which error it fails, depends only
on the filesystem tree, never on the store: model-level loop. -/
theorem insert_models_indep (root : PyPath) (cN colN : String) (lib : Nat)
    (es : List FSEntry) :
    ∀ (s u : Store) (t : Sess),
      insert_models (.real s) root cN colN lib es = .ok t →
      ∃ t' : Store, insert_models (.real u) root cN colN lib es = .ok (.real t') := by
  induction es with
  | nil => exact fun s u t _ => ⟨u, rfl⟩
  | cons e rest ih =>
    cases e with
    | file n c =>
      intro s u t h
      simp only [insert_models] at h ⊢
      exact ih s u t h
    | dir mName mEs =>
      intro s u t h
      simp only [insert_models] at h ⊢
      rw [get_infos_model_path] at h ⊢
      cases hrs : rsplitLast '-' mName.data with
      | none => rw [hrs] at h; simp at h
      | some lr =>
        obtain ⟨l, r⟩ := lr
        rw [hrs] at h
        rw [sanitize_path_append] at h ⊢
        simp only [] at h ⊢
        obtain ⟨s1, hs1, -, -, -, -, -⟩ := get_or_create_creator_real s cN
        rw [hs1] at h
        obtain ⟨s2, hs2, -, -, -, -, -⟩ := get_or_create_collection_real s1 colN
        rw [hs2] at h
        rw [addModel_real] at h
        simp only [] at h
        rw [insert_model_files_real _ _ _ _ rfl] at h
        obtain ⟨u1, hu1, -, -, -, -, -⟩ := get_or_create_creator_real u cN
        rw [hu1]
        obtain ⟨u2, hu2, -, -, -, -, -⟩ := get_or_create_collection_real u1 colN
        rw [hu2]
        rw [addModel_real]
        simp only []
        rw [insert_model_files_real _ _ _ _ rfl]
        exact ih _ _ t h

/-- Store-independence of success: collection-level loop. -/
theorem insert_collections_indep (root : PyPath) (cN : String) (lib : Nat)
    (ces : List FSEntry) :
    ∀ (s u : Store) (t : Sess),
      insert_collections (.real s) root cN lib ces = .ok t →
      ∃ t' : Store, insert_collections (.real u) root cN lib ces = .ok (.real t') := by
  induction ces with
  | nil => exact fun s u t _ => ⟨u, rfl⟩
  | cons e rest ih =>
    cases e with
    | file n c =>
      intro s u t h
      simp only [insert_collections, iterdir] at h
      simp at h
    | dir colN colEs =>
      intro s u t h
      simp only [insert_collections, iterdir, entryName] at h ⊢
      cases hm : insert_models (.real s) root cN colN lib colEs with
      | error r => rw [hm] at h; simp at h
      | ok t1 =>
        rw [hm] at h
        obtain ⟨s1, rfl, -, -, -, -, -⟩ := insert_models_ok root cN colN lib colEs s t1 hm
        obtain ⟨u1, hu1⟩ := insert_models_indep root cN colN lib colEs s u _ hm
        rw [hu1]
        exact ih s1 u1 t h

/-- Store-independence of success: creator-level loop. -/
theorem insert_creators_indep (root : PyPath) (lib : Nat) (tree : List FSEntry) :
    ∀ (s u : Store) (t : Sess),
      insert_creators (.real s) root lib tree = .ok t →
      ∃ t' : Store, insert_creators (.real u) root lib tree = .ok (.real t') := by
  induction tree with
  | nil => exact fun s u t _ => ⟨u, rfl⟩
  | cons e rest ih =>
    cases e with
    | file n c =>
      intro s u t h
      simp only [insert_creators, iterdir] at h
      simp at h
    | dir cN ces =>
      intro s u t h
      simp only [insert_creators, iterdir, entryName] at h ⊢
      cases hm : insert_collections (.real s) root cN lib ces with
      | error r => rw [hm] at h; simp at h
      | ok t1 =>
        rw [hm] at h
        obtain ⟨s1, rfl, -, -, -, -, -⟩ := insert_collections_ok root cN lib ces s t1 hm
        obtain ⟨u1, hu1⟩ := insert_collections_indep root cN lib ces s u _ hm
        rw [hu1]
        exact ih s1 u1 t h

theorem creatorIn_found {s : Store} {n : String} (h : creatorIn s n = true) :
    ∃ c, queryCreatorFirst (.real s) n = some c := by
  unfold creatorIn at h
  cases hf : s.creators.find? (fun r => r.name = n) with
  | none => rw [hf] at h; simp at h
  | some c => exact ⟨c, by simpa [queryCreatorFirst] using hf⟩

theorem collectionIn_found {s : Store} {n : String} (h : collectionIn s n = true) :
    ∃ c, queryCollectionFirst (.real s) n none = some c := by
  unfold collectionIn at h
  cases hf : s.collections.find? (fun r => r.name = n ∧ r.collection_id = none) with
  | none => rw [hf] at h; simp at h
  | some c => exact ⟨c, by simpa [queryCollectionFirst] using hf⟩

theorem get_or_create_creator_found {s : Store} {n : String} {c : CreatorRow}
    (h : queryCreatorFirst (.real s) n = some c) :
    get_or_create_creator (.real s) n = (c, .real s) := by
  unfold get_or_create_creator
  rw [h]

theorem get_or_create_collection_found {s : Store} {n : String} {c : CollectionRow}
    (h : queryCollectionFirst (.real s) n none = some c) :
    get_or_create_collection (.real s) n none = (c, .real s) := by
  unfold get_or_create_collection
  rw [h]

theorem creatorIn_congr {s s' : Store} (h : s'.creators = s.creators) (n : String) :
    creatorIn s' n = creatorIn s n := by
  unfold creatorIn
  rw [h]

theorem collectionIn_congr {s s' : Store} (h : s'.collections = s.collections)
    (n : String) : collectionIn s' n = collectionIn s n := by
  unfold collectionIn
  rw [h]

/-- Re-running the model-level loop against a store that already holds the
creator and the collection performs no creator or collection write. -/
theorem insert_models_rerun (root : PyPath) (cN colN : String) (lib : Nat)
    (es : List FSEntry) :
    ∀ (s : Store) (t : Sess),
      insert_models (.real s) root cN colN lib es = .ok t →
      (hasDir es = true → creatorIn s cN = true ∧ collectionIn s colN = true) →
      ∃ s', t = .real s' ∧ s'.creators = s.creators
        ∧ s'.collections = s.collections := by
  induction es with
  | nil =>
    intro s t h _
    simp only [insert_models] at h
    obtain rfl : Sess.real s = t := by injection h
    exact ⟨s, rfl, rfl, rfl⟩
  | cons e rest ih =>
    cases e with
    | file n c =>
      intro s t h hcov
      simp only [insert_models] at h
      exact ih s t h (fun hd => hcov (by simpa [hasDir] using hd))
    | dir mName mEs =>
      intro s t h hcov
      obtain ⟨hcr, hcol⟩ := hcov (by simp [hasDir])
      simp only [insert_models] at h
      rw [get_infos_model_path] at h
      cases hrs : rsplitLast '-' mName.data with
      | none => rw [hrs] at h; simp at h
      | some lr =>
        obtain ⟨l, r⟩ := lr
        rw [hrs] at h
        rw [sanitize_path_append] at h
        simp only [] at h
        obtain ⟨c1, hq1⟩ := creatorIn_found hcr
        rw [get_or_create_creator_found hq1] at h
        obtain ⟨c2, hq2⟩ := collectionIn_found hcol
        rw [get_or_create_collection_found hq2] at h
        simp only [] at h
        rw [addModel_real] at h
        simp only [] at h
        rw [insert_model_files_real _ _ _ _ rfl] at h
        obtain ⟨s', rfl, hc, hcoleq⟩ := ih _ t h (fun _ => ⟨hcr, hcol⟩)
        exact ⟨s', rfl, hc, hcoleq⟩

/-- Re-running the collection-level loop against a store that already holds
every creator/collection the loop looks up performs no creator or
collection write. -/
theorem insert_collections_rerun (root : PyPath) (cN : String) (lib : Nat)
    (ces : List FSEntry) :
    ∀ (s : Store) (t : Sess),
      insert_collections (.real s) root cN lib ces = .ok t →
      (colsWithModels ces ≠ [] → creatorIn s cN = true) →
      (∀ colN ∈ colsWithModels ces, collectionIn s colN = true) →
      ∃ s', t = .real s' ∧ s'.creators = s.creators
        ∧ s'.collections = s.collections := by
  induction ces with
  | nil =>
    intro s t h _ _
    simp only [insert_collections] at h
    obtain rfl : Sess.real s = t := by injection h
    exact ⟨s, rfl, rfl, rfl⟩
  | cons e rest ih =>
    cases e with
    | file n c =>
      intro s t h _ _
      simp only [insert_collections, iterdir] at h
      simp at h
    | dir colN colEs =>
      intro s t h hcovc hcovcol
      simp only [insert_collections, iterdir, entryName] at h
      cases hm : insert_models (.real s) root cN colN lib colEs with
      | error r => rw [hm] at h; simp at h
      | ok t1 =>
        rw [hm] at h
        have hcv : hasDir colEs = true →
            creatorIn s cN = true ∧ collectionIn s colN = true := by
          intro hd
          exact ⟨hcovc (by simp [colsWithModels, hd]),
            hcovcol colN (by simp [colsWithModels, hd])⟩
        obtain ⟨s1, rfl, hc1, hcol1⟩ := insert_models_rerun root cN colN lib colEs
          s t1 hm hcv
        have hcv2 : colsWithModels rest ≠ [] → creatorIn s1 cN = true := by
          intro hne
          rw [creatorIn_congr hc1]
          refine hcovc ?_
          simp only [colsWithModels]
          intro hx
          rcases List.append_eq_nil.mp hx with ⟨-, h2⟩
          exact hne h2
        have hcv3 : ∀ colN' ∈ colsWithModels rest, collectionIn s1 colN' = true := by
          intro colN' hmem
          rw [collectionIn_congr hcol1]
          refine hcovcol colN' ?_
          simp only [colsWithModels, List.mem_append]
          exact Or.inr hmem
        obtain ⟨s', rfl, hc, hcol⟩ := ih s1 t h hcv2 hcv3
        exact ⟨s', rfl, by rw [hc, hc1], by rw [hcol, hcol1]⟩

/-- Re-running the creator-level loop against a store that already holds
every (creator, collection) pair the scan looks up performs no creator or
collection write. -/
theorem insert_creators_rerun (root : PyPath) (lib : Nat) (tree : List FSEntry) :
    ∀ (s : Store) (t : Sess),
      insert_creators (.real s) root lib tree = .ok t →
      (∀ p ∈ treePairs tree, creatorIn s p.1 = true ∧ collectionIn s p.2 = true) →
      ∃ s', t = .real s' ∧ s'.creators = s.creators
        ∧ s'.collections = s.collections := by
  induction tree with
  | nil =>
    intro s t h _
    simp only [insert_creators] at h
    obtain rfl : Sess.real s = t := by injection h
    exact ⟨s, rfl, rfl, rfl⟩
  | cons e rest ih =>
    cases e with
    | file n c =>
      intro s t h _
      simp only [insert_creators, iterdir] at h
      simp at h
    | dir cN ces =>
      intro s t h hcov
      simp only [insert_creators, iterdir, entryName] at h
      cases hm : insert_collections (.real s) root cN lib ces with
      | error r => rw [hm] at h; simp at h
      | ok t1 =>
        rw [hm] at h
        have hcvc : colsWithModels ces ≠ [] → creatorIn s cN = true := by
          intro hne
          obtain ⟨colN, hcolmem⟩ := List.exists_mem_of_ne_nil _ hne
          refine (hcov (cN, colN) ?_).1
          simp only [treePairs, List.mem_append]
          exact Or.inl (List.mem_map_of_mem _ hcolmem)
        have hcvcol : ∀ colN ∈ colsWithModels ces, collectionIn s colN = true := by
          intro colN hmem
          refine (hcov (cN, colN) ?_).2
          simp only [treePairs, List.mem_append]
          exact Or.inl (List.mem_map_of_mem _ hmem)
        obtain ⟨s1, rfl, hc1, hcol1⟩ := insert_collections_rerun root cN lib ces
          s t1 hm hcvc hcvcol
        have hcv2 : ∀ p ∈ treePairs rest,
            creatorIn s1 p.1 = true ∧ collectionIn s1 p.2 = true := by
          intro p hmem
          rw [creatorIn_congr hc1, collectionIn_congr hcol1]
          refine hcov p ?_
          simp only [treePairs, List.mem_append]
          exact Or.inr hmem
        obtain ⟨s', rfl, hc, hcol⟩ := ih s1 t h hcv2
        exact ⟨s', rfl, by rw [hc, hc1], by rw [hcol, hcol1]⟩

/-- C5: re-running the same successful scan against the store it populated
creates zero additional Creator rows and zero additional Collection rows,
but inserts one fresh Model row per model directory and one fresh ModelFile
row per file, because Model and ModelFile are inserted unconditionally with
no lookup-or-create guard. -/
theorem rescan_duplicates_models_only (s0 : Store) (root : PyPath)
    (tree : List FSEntry) (lib : Nat) (t1 : Sess)
    (h1 : insert_folders (.real s0) root tree lib = .ok t1) :
    ∃ s1 s2 : Store, t1 = .real s1
      ∧ insert_folders (.real s1) root tree lib = .ok (.real s2)
      ∧ s2.creators = s1.creators
      ∧ s2.collections = s1.collections
      ∧ s2.models.length = s1.models.length + (treeModels tree).length
      ∧ s2.model_files.length = s1.model_files.length + nFilesTree tree := by
  obtain ⟨s1, rfl, -, -, -, -, hcov⟩ := insert_creators_ok root lib tree s0 t1 h1
  obtain ⟨s2, h2⟩ := insert_creators_indep root lib tree s0 s1 _ h1
  refine ⟨s1, s2, rfl, h2, ?_, ?_, ?_, ?_⟩
  · obtain ⟨s2', heq, hc, -⟩ := insert_creators_rerun root lib tree s1 _ h2 hcov
    obtain rfl : s2 = s2' := by injection heq
    exact hc
  · obtain ⟨s2', heq, -, hcol⟩ := insert_creators_rerun root lib tree s1 _ h2 hcov
    obtain rfl : s2 = s2' := by injection heq
    exact hcol
  · obtain ⟨s2', heq, hmap, -, -, -, -⟩ := insert_creators_ok root lib tree s1 _ h2
    obtain rfl : s2 = s2' := by injection heq
    have hl := congrArg List.length hmap
    simpa using hl
  · obtain ⟨s2', heq, -, hmf, -, -, -⟩ := insert_creators_ok root lib tree s1 _ h2
    obtain rfl : s2 = s2' := by injection heq
    exact hmf

/-- The store the scan of `tree1` (one model with the 3-byte file
`mesh.obj`) from an empty store produces; the digest is SHA-512 of
`"abc"`. -/
def store1f : Store :=
  ⟨[⟨some 1, "CreatorA"⟩], [⟨some 1, "CollectionB", none⟩],
   [⟨some 1, "ModelC-1234", ⟨false, ["CreatorA", "CollectionB", "ModelC-1234"]⟩,
     7, some 1, some 1⟩],
   [⟨some 1, "mesh.obj", some 1, false, false,
     "ddaf35a193617abacc417349ae20413112e6fa4e89a97ea20a9eeee64b55d39a2192992a274fc1a836ba3c23a3feebbd454d4423643ce80e2a9ac94fa54ca49f",
     "", "", 3, none⟩]⟩

set_option maxRecDepth 40000 in
theorem rescan_duplicates_models_only_witness :
    ∃ s1 s2 : Store, Sess.real store1f = .real s1
      ∧ insert_folders (.real s1) rootPath1 tree1 7 = .ok (.real s2)
      ∧ s2.creators = s1.creators
      ∧ s2.collections = s1.collections
      ∧ s2.models.length = s1.models.length + (treeModels tree1).length
      ∧ s2.model_files.length = s1.model_files.length + nFilesTree tree1 :=
  rescan_duplicates_models_only emptyStore rootPath1 tree1 7 (.real store1f)
    (by rfl)

theorem model_file_rows_one_per_file_witness :
    insert_model_files (.real emptyStore) (some 1)
        [.file "mesh.obj" [0x61, 0x62, 0x63]] =
      .real { emptyStore with model_files :=
        emptyStore.model_files ++
          (specFileRows (some 1) emptyStore.model_files.length
            (filesUnder [.file "mesh.obj" [0x61, 0x62, 0x63]])) }
    ∧ (specFileRow (some 1) 0 ("mesh.obj", [0x61, 0x62, 0x63])).presupported = false
    ∧ (specFileRow (some 1) 0 ("mesh.obj", [0x61, 0x62, 0x63])).y_up = false
    ∧ (specFileRow (some 1) 0
        ("mesh.obj", [0x61, 0x62, 0x63])).presupported_version_id = none
    ∧ (specFileRow (some 1) 0 ("mesh.obj", [0x61, 0x62, 0x63])).model_id = some 1 := by
  have h := model_file_rows_one_per_file emptyStore (some 1)
    [.file "mesh.obj" [0x61, 0x62, 0x63]]
  have hr := h.2.2.2 (specFileRow (some 1) 0 ("mesh.obj", [0x61, 0x62, 0x63]))
    (by simp [filesUnder, specFileRows, emptyStore])
  exact ⟨h.1, hr.1, hr.2.1, hr.2.2.1, hr.2.2.2⟩

end Scraper
